import Mathlib

/-!
Verification of the ADS-B encoder core of `flight370.py`.

Shallow embedding conventions:
* Python unbounded integers are modelled as `ℤ` (`/` and `%` on `ℤ` are
  Euclidean division and remainder, which agree with Python's `//` and `%`
  for the positive divisors used throughout this code).
* Python floats are modelled as exact real numbers `ℝ`; `math.sin`, `math.cos`,
  `math.acos`, `math.pi` become `Real.sin`, `Real.cos`, `Real.arccos`, `Real.pi`.
* Python's `<<` / `>>` on unbounded ints are multiplication / floor division by
  a power of two (`shl` / `shr` below, with validating lemmas tying them to the
  bitwise shift operations); `&`, `|`, `^` become `Int.land`, `Int.lor`,
  `Int.xor` (two's-complement bitwise operations, exactly Python's semantics).
-/

set_option maxRecDepth 4000

namespace Flight370

/-- Python `m << n` on unbounded integers: multiplication by `2 ^ n`. -/
def shl (m : ℤ) (n : ℕ) : ℤ := m * 2 ^ n

/-- Python `m >> n` on unbounded integers: floor division by `2 ^ n`
(arithmetic shift; `Int` division is Euclidean, which is floor division
for the positive divisor `2 ^ n`). -/
def shr (m : ℤ) (n : ℕ) : ℤ := m / 2 ^ n

/-- `shl` agrees with the bitwise left-shift on `ℤ`. -/
theorem shl_eq_shiftLeft (m : ℤ) (n : ℕ) : shl m n = m <<< (n : ℤ) := by
  rw [Int.shiftLeft_eq_mul_pow, shl]
  norm_num

/-- `shr` agrees with the bitwise (arithmetic) right-shift on `ℤ`. -/
theorem shr_eq_shiftRight (m : ℤ) (n : ℕ) : shr m n = m >>> n := by
  rw [Int.shiftRight_eq_div_pow, shr]
  norm_num

/-- CRC-24 generator polynomial constant from `crc24` in `flight370.py`. -/
def GENERATOR : ℤ := 0x1FFF409

/-- One round of the inner loop of `crc24`:
`crc <<= 1; if crc & 0x1000000: crc ^= GENERATOR`. -/
def crc24round (c : ℤ) : ℤ :=
  let c2 := shl c 1
  if Int.land c2 0x1000000 ≠ 0 then Int.xor c2 GENERATOR else c2

/-- The body of the `for byte in msg` loop of `crc24`:
`crc ^= (byte << 16)` followed by eight rounds. -/
def crc24core (crc b : ℤ) : ℤ := crc24round^[8] (Int.xor crc (shl b 16))

/-- `crc24` from `flight370.py`: fold the per-byte step over the message
starting from 0, and mask the accumulator to 24 bits. -/
def crc24 (msg : List ℤ) : ℤ := Int.land (msg.foldl crc24core 0) 0xFFFFFF

/-- Spec-side rendering of the CRC-24 round structure (from the spec's words):
`n` rounds of shifting the accumulator left by one bit and XORing it with the
generator constant whenever bit 24 is set. -/
def crcRounds : ℕ → ℤ → ℤ
  | 0, acc => acc
  | n + 1, acc =>
      crcRounds n (if (2 * acc).testBit 24 then Int.xor (2 * acc) 0x1FFF409 else 2 * acc)

/-- Spec-side CRC-24 (from the spec's words, to be compared with `crc24`):
start from accumulator 0, XOR each byte into bits 23-16, run 8 rounds,
finally mask to 24 bits. -/
def crc24Spec (msg : List ℤ) : ℤ :=
  Int.land (msg.foldl (fun acc b => crcRounds 8 (Int.xor acc (b * 65536))) 0) 0xFFFFFF

/-- For a natural-number mask `2 ^ k`, testing `Int.land x (2 ^ k) ≠ 0` is
exactly testing bit `k` of `x`. -/
theorem land_two_pow_ne_zero_iff_testBit (x : ℤ) (k : ℕ) :
    Int.land x ((2 ^ k : ℕ) : ℤ) ≠ 0 ↔ x.testBit k = true := by
  cases x with
  | ofNat a =>
      show Int.land (Int.ofNat a) (Int.ofNat (2 ^ k)) ≠ 0 ↔ Nat.testBit a k = true
      have h1 : Int.land (Int.ofNat a) (Int.ofNat (2 ^ k)) = Int.ofNat (a &&& 2 ^ k) := rfl
      rw [h1, Nat.and_two_pow]
      cases h : a.testBit k <;> simp [h]
  | negSucc a =>
      show Int.land (Int.negSucc a) (Int.ofNat (2 ^ k)) ≠ 0 ↔ (!a.testBit k) = true
      have h1 : Int.land (Int.negSucc a) (Int.ofNat (2 ^ k)) =
          Int.ofNat (Nat.ldiff (2 ^ k) a) := rfl
      have h2 : Nat.ldiff (2 ^ k) a = if a.testBit k then 0 else 2 ^ k := by
        apply Nat.eq_of_testBit_eq
        intro i
        rw [Nat.testBit_ldiff]
        by_cases hik : k = i
        · subst hik
          cases h : a.testBit k <;> simp [h, Nat.testBit_two_pow_self]
        · have h3 : Nat.testBit (2 ^ k) i = false := Nat.testBit_two_pow_of_ne hik
          cases h : a.testBit k <;> simp [h, h3]
      rw [h1, h2]
      have hp : (2 : ℕ) ^ k ≠ 0 := (pow_pos (by norm_num : (0 : ℕ) < 2) k).ne'
      cases h : a.testBit k <;> simp [h, hp]

/-- The iterated source round equals the spec-side round recursion. -/
theorem crc24round_iterate_eq_crcRounds (n : ℕ) (acc : ℤ) :
    crc24round^[n] acc = crcRounds n acc := by
  induction n generalizing acc with
  | zero => rfl
  | succ m ih =>
      rw [Function.iterate_succ_apply, crcRounds, ← ih]
      congr 1
      have hshl : shl acc 1 = 2 * acc := by
        rw [shl]; ring
      have hmask : (0x1000000 : ℤ) = ((2 ^ 24 : ℕ) : ℤ) := by norm_num
      rw [crc24round]
      simp only [hshl, hmask]
      by_cases h : (2 * acc).testBit 24 = true
      · rw [if_pos ((land_two_pow_ne_zero_iff_testBit (2 * acc) 24).mpr h), if_pos h]
        rfl
      · rw [if_neg (fun hc => h ((land_two_pow_ne_zero_iff_testBit (2 * acc) 24).mp hc)),
          if_neg h]

/-- C1: `crc24` computes exactly the specified bit-level algorithm (refinement
against the spec-side rendering `crc24Spec`), it returns 0 on the empty byte
sequence, and it reproduces the dump1090 reference vector: the trailing three
bytes `57 60 98` of the known-good frame `8D4840D6202CC371C32CE0576098` are the
CRC-24 of its leading 11 payload bytes. -/
theorem crc24_spec_ok :
    (∀ msg : List ℤ, crc24 msg = crc24Spec msg) ∧
    crc24 [] = 0 ∧
    crc24 [0x8D, 0x48, 0x40, 0xD6, 0x20, 0x2C, 0xC3, 0x71, 0xC3, 0x2C, 0xE0] = 0x576098 := by
  refine ⟨fun msg => ?_, by decide, by decide⟩
  have hstep : crc24core = fun acc b => crcRounds 8 (Int.xor acc (b * 65536)) := by
    funext acc b
    rw [crc24core, crc24round_iterate_eq_crcRounds]
    congr 2
  unfold crc24 crc24Spec
  rw [hstep]

/-- XOR with an all-ones mask is subtraction from the mask (for values below
the mask's width). -/
theorem nat_xor_two_pow_sub_one (k : ℕ) :
    ∀ b : ℕ, b < 2 ^ k → (2 ^ k - 1) ^^^ b = 2 ^ k - 1 - b := by
  induction k with
  | zero =>
      intro b hb
      have hb0 : b = 0 := by omega
      subst hb0
      rfl
  | succ k ih =>
      intro b hb
      have h2 : (2 : ℕ) ^ (k + 1) = 2 * 2 ^ k := by ring
      have hp : (0 : ℕ) < 2 ^ k := pow_pos (by norm_num) k
      have hb2 : b / 2 < 2 ^ k := by omega
      have hA2 : (2 ^ (k + 1) - 1) / 2 = 2 ^ k - 1 := by omega
      have hA1 : (2 ^ (k + 1) - 1) % 2 = 1 := by omega
      have hdiv : ((2 ^ (k + 1) - 1) ^^^ b) / 2 = 2 ^ k - 1 - b / 2 := by
        rw [Nat.xor_div_two, hA2, ih _ hb2]
      have hmod : ((2 ^ (k + 1) - 1) ^^^ b) % 2 = 1 - b % 2 := by
        rcases Nat.mod_two_eq_zero_or_one b with h | h
        · have h1 : ((2 ^ (k + 1) - 1) ^^^ b) % 2 = 1 := by
            rw [Nat.xor_mod_two_eq_one]
            simp [hA1, h]
          omega
        · have h1 : ¬ ((2 ^ (k + 1) - 1) ^^^ b) % 2 = 1 := by
            rw [Nat.xor_mod_two_eq_one]
            simp [hA1, h]
          omega
      have hsplit := Nat.div_add_mod ((2 ^ (k + 1) - 1) ^^^ b) 2
      have hbsplit := Nat.div_add_mod b 2
      omega

/-- Bitwise set difference from an all-ones mask computes the mask-complement
of the low bits. -/
theorem nat_ldiff_two_pow_sub_one (k : ℕ) (a : ℕ) :
    Nat.ldiff (2 ^ k - 1) a = 2 ^ k - 1 - a % 2 ^ k := by
  have hstep : Nat.ldiff (2 ^ k - 1) a = (2 ^ k - 1) ^^^ (a % 2 ^ k) := by
    apply Nat.eq_of_testBit_eq
    intro i
    rw [Nat.testBit_ldiff, Nat.testBit_xor, Nat.testBit_mod_two_pow,
      Nat.testBit_two_pow_sub_one]
    cases hik : decide (i < k) <;> cases hai : a.testBit i <;> simp [hik, hai]
  rw [hstep]
  exact nat_xor_two_pow_sub_one k _ (Nat.mod_lt _ (pow_pos (by norm_num) k))

/-- Python's `x & (2^k - 1)` on arbitrary (possibly negative) unbounded ints
is reduction modulo `2^k`; `Int.land` implements exactly Python's
two's-complement AND. -/
theorem int_land_mask (x : ℤ) (k : ℕ) :
    Int.land x (((2 ^ k - 1 : ℕ) : ℤ)) = x % ((2 ^ k : ℕ) : ℤ) := by
  have hp : (0 : ℕ) < 2 ^ k := pow_pos (by norm_num) k
  cases x with
  | ofNat a =>
      have h1 : Int.land (Int.ofNat a) ((2 ^ k - 1 : ℕ) : ℤ) =
          Int.ofNat (a &&& (2 ^ k - 1)) := rfl
      rw [h1, Nat.and_pow_two_sub_one_eq_mod]
      show ((a % 2 ^ k : ℕ) : ℤ) = ((a : ℕ) : ℤ) % ((2 ^ k : ℕ) : ℤ)
      exact_mod_cast Int.natCast_mod a (2 ^ k)
  | negSucc a =>
      have h1 : Int.land (Int.negSucc a) ((2 ^ k - 1 : ℕ) : ℤ) =
          Int.ofNat (Nat.ldiff (2 ^ k - 1) a) := rfl
      rw [h1, nat_ldiff_two_pow_sub_one]
      have ha : a % 2 ^ k < 2 ^ k := Nat.mod_lt _ hp
      have haq : (a : ℤ) =
          ((2 ^ k : ℕ) : ℤ) * ((a / 2 ^ k : ℕ) : ℤ) + ((a % 2 ^ k : ℕ) : ℤ) := by
        exact_mod_cast (Nat.div_add_mod a (2 ^ k)).symm
      have hofnat : (Int.ofNat (2 ^ k - 1 - a % 2 ^ k)) =
          ((2 ^ k : ℕ) : ℤ) - 1 - ((a % 2 ^ k : ℕ) : ℤ) := by
        show ((2 ^ k - 1 - a % 2 ^ k : ℕ) : ℤ) = _
        have he : (2 ^ k - 1 - a % 2 ^ k : ℕ) = 2 ^ k - (1 + a % 2 ^ k) := by omega
        rw [he, Nat.cast_sub (by omega)]
        push_cast
        ring
      rw [hofnat]
      have hsplit : Int.negSucc a =
          (((2 ^ k : ℕ) : ℤ) - 1 - ((a % 2 ^ k : ℕ) : ℤ)) +
            ((2 ^ k : ℕ) : ℤ) * (-(((a / 2 ^ k : ℕ) : ℤ) + 1)) := by
        rw [Int.negSucc_eq a]
        rw [haq]
        ring
      rw [hsplit, Int.add_mul_emod_self_left]
      have hcast1 : ((a % 2 ^ k : ℕ) : ℤ) < ((2 ^ k : ℕ) : ℤ) := by exact_mod_cast ha
      have hcast0 : (0 : ℤ) ≤ ((a % 2 ^ k : ℕ) : ℤ) := by positivity
      exact (Int.emod_eq_of_lt (by omega) (by omega)).symm

/-- Variant of `int_land_mask` with the mask and modulus written as `ℤ`
powers. -/
theorem int_land_mask' (x : ℤ) (k : ℕ) :
    Int.land x ((2 : ℤ) ^ k - 1) = x % (2 : ℤ) ^ k := by
  have h1 : ((2 : ℤ) ^ k - 1) = ((2 ^ k - 1 : ℕ) : ℤ) := by
    rw [Nat.cast_sub (pow_pos (by norm_num : (0 : ℕ) < 2) k)]
    push_cast
    ring
  have h2 : ((2 : ℤ) ^ k) = ((2 ^ k : ℕ) : ℤ) := by push_cast; ring
  rw [h1, h2, int_land_mask]

/-- Python's `x | y` is addition when the operands occupy disjoint bit ranges:
`x` a nonnegative multiple of `2^i` and `0 ≤ y < 2^i`. -/
theorem int_lor_disjoint (i : ℕ) (x y : ℤ) (hx : 0 ≤ x) (hy : 0 ≤ y)
    (hdvd : ((2 : ℤ) ^ i) ∣ x) (hlt : y < (2 : ℤ) ^ i) :
    Int.lor x y = x + y := by
  obtain ⟨a, rfl⟩ := Int.eq_ofNat_of_zero_le hx
  obtain ⟨b, rfl⟩ := Int.eq_ofNat_of_zero_le hy
  have hdvd' : 2 ^ i ∣ a := by
    have h2 : ((2 : ℤ) ^ i) = ((2 ^ i : ℕ) : ℤ) := by push_cast; ring
    rw [h2] at hdvd
    exact_mod_cast hdvd
  have hlt' : b < 2 ^ i := by
    have h2 : ((2 : ℤ) ^ i) = ((2 ^ i : ℕ) : ℤ) := by push_cast; ring
    rw [h2] at hlt
    exact_mod_cast hlt
  obtain ⟨m, rfl⟩ := hdvd'
  have h1 : Int.lor ((2 ^ i * m : ℕ) : ℤ) ((b : ℕ) : ℤ) =
      ((2 ^ i * m ||| b : ℕ) : ℤ) := rfl
  rw [h1, ← Nat.mul_add_lt_is_or hlt' m]
  push_cast
  ring

/-- `NZ = 15`, the fixed number of geographic latitude zones. -/
def NZ : ℕ := 15

/-- `cprNL` from `flight370.py`: number of longitude zones at a latitude.
`math.acos` is modelled by `Real.arccos`, `math.pow (..., 2)` by `(...) ^ 2`. -/
noncomputable def cprNL (lat : ℝ) : ℤ :=
  if lat = 0 then 59
  else if lat = 87 ∨ lat = -87 then 2
  else if lat > 87 ∨ lat < -87 then 1
  else
    ⌊2 * Real.pi /
      Real.arccos (1 - (1 - Real.cos (Real.pi / (2 * (NZ : ℝ)))) /
        Real.cos (Real.pi * lat / 180) ^ 2)⌋

/-- Spec-side rendering of the `NL` function (from the spec's words, to be
compared with `cprNL`): `NL=59` when `lat==0`; `NL=2` when `|lat|==87`;
`NL=1` when `|lat|>87`; otherwise the closed-form zone-count formula. -/
noncomputable def cprNLSpec (lat : ℝ) : ℤ :=
  if lat = 0 then 59
  else if |lat| = 87 then 2
  else if |lat| > 87 then 1
  else
    ⌊2 * Real.pi /
      Real.arccos (1 - (1 - Real.cos (Real.pi / (2 * 15))) /
        Real.cos (Real.pi * lat / 180) ^ 2)⌋

/-- `cprDlat` from `flight370.py`: the size of a latitude zone. -/
noncomputable def cprDlat (cprEncType : ℤ) : ℝ :=
  360 / ((4 * (NZ : ℤ) - cprEncType : ℤ) : ℝ)

/-- `cprDlon` from `flight370.py`: the size of a longitude zone at a
latitude. -/
noncomputable def cprDlon (lat : ℝ) (cprEncType : ℤ) : ℝ :=
  if cprNL lat = 0 then 0
  else 360 / ((max 1 (cprNL lat - cprEncType) : ℤ) : ℝ)

/-- Python's float modulo `a % b`: `a - b * floor(a / b)` (the remainder takes
the sign of the divisor; in particular it is nonnegative for `b > 0`, true
mathematical modulo). -/
noncomputable def pymod (a b : ℝ) : ℝ := a - b * ⌊a / b⌋

/-- Python 3's `round` on floats: nearest integer, ties to the nearest even
integer (banker's rounding); away from ties it agrees with Mathlib's
`round`. -/
noncomputable def pyround (x : ℝ) : ℤ :=
  if Int.fract x = 1 / 2 then (if Even ⌊x⌋ then ⌊x⌋ else ⌊x⌋ + 1) else round x

/-- Python's `int()` on a float: truncation toward zero. -/
noncomputable def pytrunc (x : ℝ) : ℤ := if 0 ≤ x then ⌊x⌋ else ⌈x⌉

/-- `encode_altitude` from `flight370.py`: round to the nearest 25 ft,
divide by 25, keep the low 11 bits, and set the Q-bit (bit 11). -/
noncomputable def encode_altitude (altitude_ft : ℝ) : ℤ :=
  let rounded : ℤ := pyround (altitude_ft / 25)
  let n : ℤ := pytrunc (((rounded * 25 : ℤ) : ℝ) / 25)
  let q_bit : ℤ := 1
  Int.lor (Int.land n 0x7FF) (shl q_bit 11)

/-- The first normalization loop of `encode_cpr_position`:
`while lon < -180: lon += 360`. -/
noncomputable def wrapUp (lon : ℝ) : ℝ :=
  if h : lon < -180 then wrapUp (lon + 360) else lon
termination_by (⌈(-180 - lon) / 360⌉).toNat
decreasing_by
  have harg : (-180 - (lon + 360)) / 360 = (-180 - lon) / 360 - 1 := by ring
  have hpos : 0 < ⌈(-180 - lon) / 360⌉ :=
    Int.ceil_pos.mpr (div_pos (by linarith) (by norm_num))
  rw [harg]
  have hsub : ⌈(-180 - lon) / 360 - 1⌉ = ⌈(-180 - lon) / 360⌉ - 1 := by
    exact_mod_cast Int.ceil_sub_int ((-180 - lon) / 360) 1
  rw [hsub]
  omega

/-- The second normalization loop of `encode_cpr_position`:
`while lon >= 180: lon -= 360`. -/
noncomputable def wrapDown (lon : ℝ) : ℝ :=
  if h : 180 ≤ lon then wrapDown (lon - 360) else lon
termination_by (⌊(lon - 180) / 360⌋ + 1).toNat
decreasing_by
  have harg : (lon - 360 - 180) / 360 = (lon - 180) / 360 - 1 := by ring
  have hpos : 0 ≤ ⌊(lon - 180) / 360⌋ :=
    Int.floor_nonneg.mpr (div_nonneg (by linarith) (by norm_num))
  rw [harg]
  have hsub : ⌊(lon - 180) / 360 - 1⌋ = ⌊(lon - 180) / 360⌋ - 1 := by
    exact_mod_cast Int.floor_sub_int ((lon - 180) / 360) 1
  rw [hsub]
  omega

/-- The latitude clamp of `encode_cpr_position`: `lat = max(-90, min(90, lat))`. -/
noncomputable def clampLat (lat : ℝ) : ℝ := max (-90) (min 90 lat)

/-- The longitude normalization of `encode_cpr_position`: first the
`+360` loop, then the `-360` loop. -/
noncomputable def normLon (lon : ℝ) : ℝ := wrapDown (wrapUp lon)

/-- `encode_cpr_position` from `flight370.py`: clamp latitude, normalize
longitude by the two `±360` loops, pick the zone sizes, compute the two
17-bit indices and mask them to 17 bits. -/
noncomputable def encode_cpr_position (lat lon : ℝ) (is_odd : Bool) : ℤ × ℤ :=
  let lat2 := clampLat lat
  let lon2 := normLon lon
  let cprEncType : ℤ := if is_odd then 1 else 0
  let dlat := cprDlat cprEncType
  let dlon := cprDlon lat2 cprEncType
  let lat_cpr := ⌊(2 : ℝ) ^ 17 * (pymod lat2 dlat / dlat)⌋
  let lon_cpr := ⌊(2 : ℝ) ^ 17 * (pymod lon2 dlon / dlon)⌋
  (Int.land lat_cpr 0x1FFFF, Int.land lon_cpr 0x1FFFF)

/-- The argument passed to `math.acos` in the general branch of `cprNL`. -/
noncomputable def nlAcosArg (lat : ℝ) : ℝ :=
  1 - (1 - Real.cos (Real.pi / (2 * (NZ : ℝ)))) / Real.cos (Real.pi * lat / 180) ^ 2

/-- Double-angle identity specialised to the `cprNL` constant:
`1 - cos(pi/30) = 2 sin(pi/60)^2`. -/
theorem one_sub_cos_nz : 1 - Real.cos (Real.pi / (2 * (NZ : ℝ))) =
    2 * Real.sin (Real.pi / 60) ^ 2 := by
  have hNZ : ((NZ : ℕ) : ℝ) = 15 := by norm_num [NZ]
  have h1 : Real.pi / (2 * (NZ : ℝ)) = 2 * (Real.pi / 60) := by
    rw [hNZ]
    ring
  rw [h1, Real.cos_two_mul]
  have h2 := Real.sin_sq_add_cos_sq (Real.pi / 60)
  nlinarith [h2]

/-- The `cprNL` constant as a cosine: `sin(pi/60) = cos(87*pi/180)`. -/
theorem sin_pi_div_sixty_eq : Real.sin (Real.pi / 60) = Real.cos (87 * Real.pi / 180) := by
  rw [← Real.cos_pi_div_two_sub]
  congr 1
  ring

/-- `sin(pi/60)` is strictly positive. -/
theorem sin_pi_div_sixty_pos : 0 < Real.sin (Real.pi / 60) := by
  have hπ := Real.pi_pos
  exact Real.sin_pos_of_pos_of_lt_pi (by positivity) (by nlinarith)

/-- For `|lat| < 87`, the constant `sin(pi/60)` is strictly below
`cos(pi*lat/180)`. -/
theorem sin_lt_cos_theta {lat : ℝ} (h : |lat| < 87) :
    Real.sin (Real.pi / 60) < Real.cos (Real.pi * lat / 180) := by
  have hπ := Real.pi_pos
  have h87 : 87 * Real.pi / 180 ≤ Real.pi := by nlinarith
  have habs : |Real.pi * lat / 180| < 87 * Real.pi / 180 := by
    rw [abs_div, abs_mul, abs_of_pos hπ]
    rw [show |(180 : ℝ)| = 180 by norm_num]
    have := abs_nonneg lat
    nlinarith
  calc Real.sin (Real.pi / 60) = Real.cos (87 * Real.pi / 180) := sin_pi_div_sixty_eq
    _ < Real.cos |Real.pi * lat / 180| :=
        Real.cos_lt_cos_of_nonneg_of_le_pi (abs_nonneg _) h87 habs
    _ = Real.cos (Real.pi * lat / 180) := Real.cos_abs _

/-- For `|lat| < 87` the cosine in the `cprNL` denominator is strictly
positive (in particular nonzero: no division by zero). -/
theorem cos_theta_pos {lat : ℝ} (h : |lat| < 87) :
    0 < Real.cos (Real.pi * lat / 180) :=
  lt_of_le_of_lt sin_pi_div_sixty_pos.le (sin_lt_cos_theta h)

/-- For `|lat| < 87` the `acos` argument of `cprNL` lies strictly inside
`(-1, 1)`: `math.acos` never sees a domain error there. -/
theorem nlAcosArg_mem {lat : ℝ} (h : |lat| < 87) :
    -1 < nlAcosArg lat ∧ nlAcosArg lat < 1 := by
  have hc : 0 < Real.cos (Real.pi * lat / 180) := cos_theta_pos h
  have hs : 0 < Real.sin (Real.pi / 60) := sin_pi_div_sixty_pos
  have hslt : Real.sin (Real.pi / 60) < Real.cos (Real.pi * lat / 180) := sin_lt_cos_theta h
  have hsq : Real.sin (Real.pi / 60) ^ 2 < Real.cos (Real.pi * lat / 180) ^ 2 := by
    nlinarith
  constructor
  · unfold nlAcosArg
    rw [one_sub_cos_nz]
    have hq : 2 * Real.sin (Real.pi / 60) ^ 2 / Real.cos (Real.pi * lat / 180) ^ 2 < 2 := by
      rw [div_lt_iff (by positivity)]
      nlinarith
    linarith
  · unfold nlAcosArg
    rw [one_sub_cos_nz]
    have hq : 0 < 2 * Real.sin (Real.pi / 60) ^ 2 / Real.cos (Real.pi * lat / 180) ^ 2 := by
      positivity
    linarith

/-- In the general branch of `cprNL` (both special-case tests failed), the
latitude satisfies `|lat| < 87`. -/
theorem general_branch_abs_lt {lat : ℝ} (h2 : ¬(lat = 87 ∨ lat = -87))
    (h3 : ¬(lat > 87 ∨ lat < -87)) : |lat| < 87 := by
  push_neg at h2 h3
  exact abs_lt.mpr ⟨lt_of_le_of_ne h3.2 (Ne.symm h2.2), lt_of_le_of_ne h3.1 h2.1⟩

/-- `cprNL` always returns at least 1 (on every real latitude; in the general
branch it is in fact at least 2). -/
theorem cprNL_ge_one (lat : ℝ) : 1 ≤ cprNL lat := by
  unfold cprNL
  split_ifs with h1 h2 h3
  · norm_num
  · norm_num
  · norm_num
  · have habs : |lat| < 87 := general_branch_abs_lt h2 h3
    have harg := nlAcosArg_mem habs
    have hA0 : 0 < Real.arccos (nlAcosArg lat) := Real.arccos_pos.mpr harg.2
    have hAπ : Real.arccos (nlAcosArg lat) ≤ Real.pi := Real.arccos_le_pi _
    have h2le : (2 : ℝ) ≤ 2 * Real.pi / Real.arccos (nlAcosArg lat) := by
      rw [le_div_iff hA0]
      nlinarith
    have hfloor : (1 : ℤ) ≤ ⌊2 * Real.pi / Real.arccos (nlAcosArg lat)⌋ := by
      apply Int.le_floor.mpr
      push_cast
      linarith
    exact hfloor

/-- `cprDlon` is strictly positive for every latitude and every encoding
type: the `NL == 0` degenerate branch is unreachable and the divisor
`max 1 (NL - type)` is at least 1. -/
theorem cprDlon_pos (lat : ℝ) (t : ℤ) : 0 < cprDlon lat t := by
  unfold cprDlon
  have hNL := cprNL_ge_one lat
  rw [if_neg (by omega)]
  have hmax : (1 : ℤ) ≤ max 1 (cprNL lat - t) := le_max_left _ _
  have hcast : (1 : ℝ) ≤ ((max 1 (cprNL lat - t) : ℤ) : ℝ) := by exact_mod_cast hmax
  positivity

/-- `cprDlat` is strictly positive for the two encoding types the encoder
uses. -/
theorem cprDlat_pos (t : ℤ) (h : t = 0 ∨ t = 1) : 0 < cprDlat t := by
  unfold cprDlat
  have hcast : (0 : ℝ) < ((4 * (NZ : ℤ) - t : ℤ) : ℝ) := by
    have : (0 : ℤ) < 4 * (NZ : ℤ) - t := by
      rcases h with h | h <;> simp [h, NZ]
    exact_mod_cast this
  positivity

/-- The `+360` loop leaves every longitude at or above `-180`. -/
theorem wrapUp_ge (lon : ℝ) : -180 ≤ wrapUp lon := by
  induction lon using wrapUp.induct with
  | case1 lon h ih =>
      rw [wrapUp, dif_pos h]
      exact ih
  | case2 lon h =>
      rw [wrapUp, dif_neg h]
      linarith

/-- The `+360` loop only adds whole multiples of 360. -/
theorem wrapUp_shift (lon : ℝ) : ∃ k : ℤ, wrapUp lon = lon + 360 * k := by
  induction lon using wrapUp.induct with
  | case1 lon h ih =>
      obtain ⟨k, hk⟩ := ih
      refine ⟨k + 1, ?_⟩
      rw [wrapUp, dif_pos h, hk]
      push_cast
      ring
  | case2 lon h =>
      refine ⟨0, ?_⟩
      rw [wrapUp, dif_neg h]
      simp

/-- The `-360` loop leaves every longitude strictly below `180`. -/
theorem wrapDown_lt (lon : ℝ) : wrapDown lon < 180 := by
  induction lon using wrapDown.induct with
  | case1 lon h ih =>
      rw [wrapDown, dif_pos h]
      exact ih
  | case2 lon h =>
      rw [wrapDown, dif_neg h]
      linarith

/-- The `-360` loop preserves the lower bound `-180`. -/
theorem wrapDown_ge (lon : ℝ) : -180 ≤ lon → -180 ≤ wrapDown lon := by
  induction lon using wrapDown.induct with
  | case1 lon h ih =>
      intro h0
      rw [wrapDown, dif_pos h]
      exact ih (by linarith)
  | case2 lon h =>
      intro h0
      rw [wrapDown, dif_neg h]
      exact h0

/-- The `-360` loop only subtracts whole multiples of 360. -/
theorem wrapDown_shift (lon : ℝ) : ∃ k : ℤ, wrapDown lon = lon + 360 * k := by
  induction lon using wrapDown.induct with
  | case1 lon h ih =>
      obtain ⟨k, hk⟩ := ih
      refine ⟨k - 1, ?_⟩
      rw [wrapDown, dif_pos h, hk]
      push_cast
      ring
  | case2 lon h =>
      refine ⟨0, ?_⟩
      rw [wrapDown, dif_neg h]
      simp

/-- `normLon` lands in `[-180, 180)` and differs from the input by a whole
multiple of 360. -/
theorem normLon_ok (lon : ℝ) :
    -180 ≤ normLon lon ∧ normLon lon < 180 ∧ ∃ k : ℤ, normLon lon = lon + 360 * k := by
  refine ⟨wrapDown_ge _ (wrapUp_ge lon), wrapDown_lt _, ?_⟩
  obtain ⟨k1, hk1⟩ := wrapUp_shift lon
  obtain ⟨k2, hk2⟩ := wrapDown_shift (wrapUp lon)
  refine ⟨k1 + k2, ?_⟩
  rw [normLon, hk2, hk1]
  push_cast
  ring

/-- Python's float modulo is nonnegative for a positive divisor, even on
negative operands. -/
theorem pymod_nonneg (a : ℝ) {b : ℝ} (hb : 0 < b) : 0 ≤ pymod a b := by
  unfold pymod
  have h1 : (⌊a / b⌋ : ℝ) ≤ a / b := Int.floor_le _
  have h2 : b * (a / b) = a := by field_simp
  nlinarith [mul_le_mul_of_nonneg_left h1 hb.le]

/-- Python's float modulo stays below a positive divisor. -/
theorem pymod_lt (a : ℝ) {b : ℝ} (hb : 0 < b) : pymod a b < b := by
  unfold pymod
  have h1 : a / b < ⌊a / b⌋ + 1 := Int.lt_floor_add_one _
  have h2 : b * (a / b) = a := by field_simp
  nlinarith [mul_lt_mul_of_pos_left h1 hb]

/-- The 17-bit CPR index computation lands in `[0, 2^17)` whenever the zone
size is positive. -/
theorem cpr_index_bounds (x : ℝ) {dl : ℝ} (hdl : 0 < dl) :
    0 ≤ ⌊(2 : ℝ) ^ 17 * (pymod x dl / dl)⌋ ∧
      ⌊(2 : ℝ) ^ 17 * (pymod x dl / dl)⌋ < 131072 := by
  have h0 : 0 ≤ pymod x dl / dl := div_nonneg (pymod_nonneg x hdl) hdl.le
  have h1 : pymod x dl / dl < 1 := (div_lt_one hdl).mpr (pymod_lt x hdl)
  constructor
  · exact Int.floor_nonneg.mpr (by positivity)
  · apply Int.floor_lt.mpr
    push_cast
    nlinarith

/-- Masking with `2^k - 1` is the identity on `[0, 2^k)`. -/
theorem int_land_mask_self {x : ℤ} (k : ℕ) (h0 : 0 ≤ x) (hlt : x < 2 ^ k) :
    Int.land x ((2 : ℤ) ^ k - 1) = x := by
  rw [int_land_mask' x k]
  exact Int.emod_eq_of_lt h0 hlt

/-- C4: `cprNL` equals the case-defined `NL` function stated by the spec
(`cprNLSpec`), and takes the specified values at the boundary latitudes
`0`, `±87` and `±88`. -/
theorem cprNL_matches_spec :
    (∀ lat : ℝ, cprNL lat = cprNLSpec lat) ∧
    cprNL 0 = 59 ∧ cprNL 87 = 2 ∧ cprNL (-87) = 2 ∧ cprNL 88 = 1 ∧ cprNL (-88) = 1 := by
  have h87 : ∀ lat : ℝ, (|lat| = 87) ↔ (lat = 87 ∨ lat = -87) := fun lat =>
    abs_eq (by norm_num)
  have hgt : ∀ lat : ℝ, (87 < |lat|) ↔ (lat > 87 ∨ lat < -87) := by
    intro lat
    rw [lt_abs]
    constructor
    · rintro (h | h)
      · exact Or.inl h
      · exact Or.inr (by linarith)
    · rintro (h | h)
      · exact Or.inl h
      · exact Or.inr (by linarith)
  refine ⟨fun lat => ?_, by norm_num [cprNL], by norm_num [cprNL], by norm_num [cprNL],
    by norm_num [cprNL], by norm_num [cprNL]⟩
  by_cases h1 : lat = 0
  · simp [cprNL, cprNLSpec, h1]
  by_cases h2 : lat = 87 ∨ lat = -87
  · have habs : |lat| = 87 := (h87 lat).mpr h2
    simp [cprNL, cprNLSpec, h1, h2, habs]
  by_cases h3 : lat > 87 ∨ lat < -87
  · have habs : 87 < |lat| := (hgt lat).mpr h3
    have habs87 : ¬|lat| = 87 := fun hh => h2 ((h87 lat).mp hh)
    simp [cprNL, cprNLSpec, h1, h2, h3, habs, habs87]
  · have habs87 : ¬|lat| = 87 := fun hh => h2 ((h87 lat).mp hh)
    have habsgt : ¬87 < |lat| := fun hh => h3 ((hgt lat).mp hh)
    simp only [cprNL, cprNLSpec, if_neg h1, if_neg h2, if_neg h3, if_neg habs87,
      gt_iff_lt, if_neg habsgt, NZ]
    norm_num

/-- C5: for every latitude (in particular every latitude in `[-90, 90]`) the
special cases of `cprNL` exactly cover the degenerate region: whenever the
closed-form branch can be reached (`|lat| < 87`) the `acos` argument lies in
`[-1, 1]` and the squared cosine divisor is nonzero; `cprNL` always returns
at least 1, so the `NL == 0` branch of `cprDlon` is unreachable and
`cprDlon` is strictly positive. -/
theorem cprNL_cprDlon_safe (lat : ℝ) (t : ℤ) :
    (|lat| < 87 →
      -1 ≤ nlAcosArg lat ∧ nlAcosArg lat ≤ 1 ∧ Real.cos (Real.pi * lat / 180) ≠ 0) ∧
    1 ≤ cprNL lat ∧ 0 < cprDlon lat t := by
  refine ⟨fun h => ?_, cprNL_ge_one lat, cprDlon_pos lat t⟩
  obtain ⟨hlo, hhi⟩ := nlAcosArg_mem h
  exact ⟨hlo.le, hhi.le, (cos_theta_pos h).ne'⟩

/-- Witness for C5 at the concrete latitude 0 and even encoding type. -/
theorem cprNL_cprDlon_safe_witness :
    (-1 ≤ nlAcosArg 0 ∧ nlAcosArg 0 ≤ 1 ∧ Real.cos (Real.pi * 0 / 180) ≠ 0) ∧
      1 ≤ cprNL 0 ∧ 0 < cprDlon 0 0 :=
  ⟨(cprNL_cprDlon_safe 0 0).1 (by norm_num), (cprNL_cprDlon_safe 0 0).2⟩

/-- C3: `encode_cpr_position` clamps latitude into `[-90, 90]`, normalizes
longitude into `[-180, 180)` by whole `±360` steps, divides by the positive
zone sizes `cprDlat` / `cprDlon`, uses a true mathematical modulo (the
remainder is nonnegative and below the divisor, also for negative operands),
its 17-bit masks are no-ops on the computed floors, and both returned
indices lie in `[0, 131071]`. -/
theorem encode_cpr_position_ok (lat lon : ℝ) (is_odd : Bool) :
    (-90 ≤ clampLat lat ∧ clampLat lat ≤ 90) ∧
    (-180 ≤ normLon lon ∧ normLon lon < 180 ∧ ∃ k : ℤ, normLon lon = lon + 360 * k) ∧
    (encode_cpr_position lat lon is_odd).1 =
      ⌊(2 : ℝ) ^ 17 * (pymod (clampLat lat) (cprDlat (if is_odd then 1 else 0)) /
        cprDlat (if is_odd then 1 else 0))⌋ ∧
    (encode_cpr_position lat lon is_odd).2 =
      ⌊(2 : ℝ) ^ 17 * (pymod (normLon lon) (cprDlon (clampLat lat) (if is_odd then 1 else 0)) /
        cprDlon (clampLat lat) (if is_odd then 1 else 0))⌋ ∧
    (0 ≤ pymod (clampLat lat) (cprDlat (if is_odd then 1 else 0)) ∧
      pymod (clampLat lat) (cprDlat (if is_odd then 1 else 0)) <
        cprDlat (if is_odd then 1 else 0)) ∧
    (0 ≤ pymod (normLon lon) (cprDlon (clampLat lat) (if is_odd then 1 else 0)) ∧
      pymod (normLon lon) (cprDlon (clampLat lat) (if is_odd then 1 else 0)) <
        cprDlon (clampLat lat) (if is_odd then 1 else 0)) ∧
    (0 ≤ (encode_cpr_position lat lon is_odd).1 ∧
      (encode_cpr_position lat lon is_odd).1 ≤ 131071) ∧
    (0 ≤ (encode_cpr_position lat lon is_odd).2 ∧
      (encode_cpr_position lat lon is_odd).2 ≤ 131071) := by
  have htt : (if is_odd then (1 : ℤ) else 0) = 0 ∨ (if is_odd then (1 : ℤ) else 0) = 1 := by
    cases is_odd <;> simp
  have hdlat : 0 < cprDlat (if is_odd then 1 else 0) := cprDlat_pos _ htt
  have hdlon : 0 < cprDlon (clampLat lat) (if is_odd then 1 else 0) := cprDlon_pos _ _
  have hlatb := cpr_index_bounds (clampLat lat) hdlat
  have hlonb := cpr_index_bounds (normLon lon) hdlon
  have hmask : (0x1FFFF : ℤ) = (2 : ℤ) ^ 17 - 1 := by norm_num
  have hfst : (encode_cpr_position lat lon is_odd).1 =
      ⌊(2 : ℝ) ^ 17 * (pymod (clampLat lat) (cprDlat (if is_odd then 1 else 0)) /
        cprDlat (if is_odd then 1 else 0))⌋ := by
    simp only [encode_cpr_position]
    rw [hmask]
    exact int_land_mask_self 17 hlatb.1 hlatb.2
  have hsnd : (encode_cpr_position lat lon is_odd).2 =
      ⌊(2 : ℝ) ^ 17 * (pymod (normLon lon) (cprDlon (clampLat lat) (if is_odd then 1 else 0)) /
        cprDlon (clampLat lat) (if is_odd then 1 else 0))⌋ := by
    simp only [encode_cpr_position]
    rw [hmask]
    exact int_land_mask_self 17 hlonb.1 hlonb.2
  refine ⟨⟨le_max_left _ _, max_le (by norm_num) (min_le_left _ _)⟩, normLon_ok lon,
    hfst, hsnd,
    ⟨pymod_nonneg _ hdlat, pymod_lt _ hdlat⟩,
    ⟨pymod_nonneg _ hdlon, pymod_lt _ hdlon⟩,
    ⟨?_, ?_⟩, ⟨?_, ?_⟩⟩
  · rw [hfst]; exact hlatb.1
  · rw [hfst]; omega
  · rw [hsnd]; exact hlonb.1
  · rw [hsnd]; omega

/-- Variant of `int_lor_disjoint` with the bounded operand first. -/
theorem int_lor_disjoint' (i : ℕ) (x y : ℤ) (hx : 0 ≤ x) (hy : 0 ≤ y)
    (hlt : x < (2 : ℤ) ^ i) (hdvd : ((2 : ℤ) ^ i) ∣ y) : Int.lor x y = x + y := by
  obtain ⟨a, rfl⟩ := Int.eq_ofNat_of_zero_le hx
  obtain ⟨b, rfl⟩ := Int.eq_ofNat_of_zero_le hy
  have hdvd' : 2 ^ i ∣ b := by
    have h2 : ((2 : ℤ) ^ i) = ((2 ^ i : ℕ) : ℤ) := by push_cast; ring
    rw [h2] at hdvd
    exact_mod_cast hdvd
  have hlt' : a < 2 ^ i := by
    have h2 : ((2 : ℤ) ^ i) = ((2 ^ i : ℕ) : ℤ) := by push_cast; ring
    rw [h2] at hlt
    exact_mod_cast hlt
  obtain ⟨m, rfl⟩ := hdvd'
  have h1 : Int.lor ((a : ℕ) : ℤ) ((2 ^ i * m : ℕ) : ℤ) =
      ((a ||| 2 ^ i * m : ℕ) : ℤ) := rfl
  rw [h1, Nat.or_comm, ← Nat.mul_add_lt_is_or hlt' m]
  push_cast
  ring

/-- Python `int()` of an exact integer value is that integer. -/
theorem pytrunc_intCast (r : ℤ) : pytrunc ((r : ℤ) : ℝ) = r := by
  unfold pytrunc
  split_ifs with h
  · exact Int.floor_intCast r
  · exact Int.ceil_intCast r

/-- Python `round()` of an exact integer value is that integer. -/
theorem pyround_intCast (r : ℤ) : pyround ((r : ℤ) : ℝ) = r := by
  unfold pyround
  rw [Int.fract_intCast]
  norm_num

/-- Closed form for `encode_altitude`: the wrapped low 11 bits of `n` plus
the Q-bit. -/
theorem encode_altitude_eq (a : ℝ) :
    encode_altitude a = pyround (a / 25) % 2 ^ 11 + 2 ^ 11 := by
  have hdiv : (((pyround (a / 25) * 25 : ℤ) : ℝ) / 25) = ((pyround (a / 25) : ℤ) : ℝ) := by
    push_cast
    ring
  have hmod0 : (0 : ℤ) ≤ pyround (a / 25) % 2 ^ 11 :=
    Int.emod_nonneg _ (by norm_num)
  have hmod1 : pyround (a / 25) % 2 ^ 11 < 2 ^ 11 :=
    Int.emod_lt_of_pos _ (by norm_num)
  simp only [encode_altitude]
  rw [hdiv, pytrunc_intCast]
  rw [show (0x7FF : ℤ) = (2 : ℤ) ^ 11 - 1 from by norm_num, int_land_mask']
  rw [show shl 1 11 = (2 : ℤ) ^ 11 from by norm_num [shl]]
  rw [int_lor_disjoint' 11 _ _ hmod0 (by norm_num) hmod1 dvd_rfl]

/-- The encoded altitude always lies in `[2^11, 2^12) = [2048, 4096)`. -/
theorem encode_altitude_mem (a : ℝ) :
    2048 ≤ encode_altitude a ∧ encode_altitude a < 4096 := by
  have h := encode_altitude_eq a
  have hmod0 : (0 : ℤ) ≤ pyround (a / 25) % 2 ^ 11 :=
    Int.emod_nonneg _ (by norm_num)
  have hmod1 : pyround (a / 25) % 2 ^ 11 < 2 ^ 11 :=
    Int.emod_lt_of_pos _ (by norm_num)
  have hp11 : (2 : ℤ) ^ 11 = 2048 := by norm_num
  constructor <;> omega

/-- C6: `encode_altitude` rounds to the nearest multiple of 25, divides by
25 to a signed integer `n`, and returns `(n & 0x7FF) | (1 << 11)`; the result
always lies in `[2^11, 2^12)` — 12 bits with the Q-bit (bit 11) set — with
negative or over-range altitudes wrapping silently into the low 11 bits
(`n % 2^11`), and `encode_altitude 10000 = 400 | 0x800`. -/
theorem encode_altitude_ok :
    (∀ a : ℝ, encode_altitude a = pyround (a / 25) % 2 ^ 11 + 2 ^ 11 ∧
      2 ^ 11 ≤ encode_altitude a ∧ encode_altitude a < 2 ^ 12 ∧
      encode_altitude a / 2 ^ 11 = 1) ∧
    encode_altitude 10000 = Int.lor 400 0x800 := by
  refine ⟨fun a => ?_, ?_⟩
  · have h := encode_altitude_eq a
    have hmem := encode_altitude_mem a
    have hp11 : (2 : ℤ) ^ 11 = 2048 := by norm_num
    have hp12 : (2 : ℤ) ^ 12 = 4096 := by norm_num
    refine ⟨h, by omega, by omega, by omega⟩
  · have h := encode_altitude_eq 10000
    have h400 : (10000 : ℝ) / 25 = ((400 : ℤ) : ℝ) := by norm_num
    rw [h400, pyround_intCast] at h
    rw [h]
    decide

/-- The 17-bit mask keeps any integer inside `[0, 131072)`. -/
theorem land17_mem (x : ℤ) : 0 ≤ Int.land x 0x1FFFF ∧ Int.land x 0x1FFFF < 131072 := by
  rw [show (0x1FFFF : ℤ) = (2 : ℤ) ^ 17 - 1 from by norm_num, int_land_mask']
  have h2 : (2 : ℤ) ^ 17 = 131072 := by norm_num
  have h0 := Int.emod_nonneg x (show ((2 : ℤ) ^ 17) ≠ 0 from by norm_num)
  have h1 := Int.emod_lt_of_pos x (show (0 : ℤ) < (2 : ℤ) ^ 17 from by norm_num)
  exact ⟨h0, by omega⟩

/-- Both components of `encode_cpr_position` lie in `[0, 2^17) = [0, 131072)`
(unconditional: the final 17-bit mask guarantees it). -/
theorem encode_cpr_fst_mem (lat lon : ℝ) (odd : Bool) :
    0 ≤ (encode_cpr_position lat lon odd).1 ∧
      (encode_cpr_position lat lon odd).1 < 131072 := by
  simp only [encode_cpr_position]
  exact land17_mem _

/-- Second-component version of `encode_cpr_fst_mem`. -/
theorem encode_cpr_snd_mem (lat lon : ℝ) (odd : Bool) :
    0 ≤ (encode_cpr_position lat lon odd).2 ∧
      (encode_cpr_position lat lon odd).2 < 131072 := by
  simp only [encode_cpr_position]
  exact land17_mem _

/-- The `icao_hex` argument of the frame builders: Python callers pass
either a string (parsed as hex) or an int (used as is). -/
inductive IcaoInput where
  | str (s : String)
  | int (i : ℤ)

/-- Value of one hexadecimal digit character, `none` for non-hex characters
(both cases accepted, as by Python). -/
def hexDigitVal (c : Char) : Option ℕ :=
  if '0' ≤ c ∧ c ≤ '9' then some (c.toNat - 48)
  else if 'A' ≤ c ∧ c ≤ 'F' then some (c.toNat - 55)
  else if 'a' ≤ c ∧ c ≤ 'f' then some (c.toNat - 87)
  else none

/-- Modelled from the spec: Python's `int(icao_hex, 16)` as used by both
frame builders on string inputs — `none` models the `ValueError` raised
before any frame byte is built when the string is empty or contains a
character that is not a hexadecimal digit. (Python's optional sign, `0x`
prefix, underscores and surrounding whitespace are not exercised by this
program and are outside the spec's notion of a plain hex identity.) -/
def pyIntHex (s : String) : Option ℤ :=
  if s.data ≠ [] ∧ s.data.all (fun c => (hexDigitVal c).isSome) then
    some ((s.data.foldl (fun acc c => 16 * acc + ((hexDigitVal c).getD 0)) 0 : ℕ) : ℤ)
  else none

/-- The 11 pre-CRC bytes of the airborne position message
(`create_airborne_position_message`, assignments `msg[0]` … `msg[10]`). -/
noncomputable def posPayload (icao_int : ℤ) (lat lon altitude : ℝ) (is_odd : Bool) : List ℤ :=
  let alt_encoded := encode_altitude altitude
  let lat_cpr := (encode_cpr_position lat lon is_odd).1
  let lon_cpr := (encode_cpr_position lat lon is_odd).2
  let f_flag : ℤ := if is_odd then 1 else 0
  [0x8D,
   Int.land (shr icao_int 16) 0xFF,
   Int.land (shr icao_int 8) 0xFF,
   Int.land icao_int 0xFF,
   0x58,
   Int.land (shr alt_encoded 4) 0xFF,
   Int.lor (Int.lor (Int.lor (shl (Int.land alt_encoded 0x0F) 4) (shl 0 3)) (shl f_flag 2))
     (Int.land (shr lat_cpr 15) 0x03),
   Int.land (shr lat_cpr 7) 0xFF,
   Int.lor (shl (Int.land lat_cpr 0x7F) 1) (Int.land (shr lon_cpr 16) 0x01),
   Int.land (shr lon_cpr 8) 0xFF,
   Int.land lon_cpr 0xFF]

/-- The East-West knot component of `create_velocity_message`:
`speed_knots * math.sin(math.radians(heading))`, with
`math.radians(heading) = heading * pi / 180`. -/
noncomputable def ewComponent (speed_knots heading : ℝ) : ℝ :=
  speed_knots * Real.sin (heading * Real.pi / 180)

/-- The North-South knot component of `create_velocity_message`:
`speed_knots * math.cos(math.radians(heading))`. -/
noncomputable def nsComponent (speed_knots heading : ℝ) : ℝ :=
  speed_knots * Real.cos (heading * Real.pi / 180)

/-- Sign bit used by `create_velocity_message`: `0 if x >= 0 else 1`. -/
noncomputable def signBit (x : ℝ) : ℤ := if 0 ≤ x then 0 else 1

/-- Clamped truncated magnitude used by `create_velocity_message`:
`min(m, int(abs(x)))`. -/
noncomputable def clampedMag (x : ℝ) (m : ℤ) : ℤ := min m (pytrunc |x|)

/-- The vertical-rate magnitude of `create_velocity_message`:
`min(511, int(abs(vertical_rate) / 64))`. -/
noncomputable def vrMag (x : ℝ) : ℤ := min 511 (pytrunc (|x| / 64))

/-- The 11 pre-CRC bytes of the airborne velocity message
(`create_velocity_message`, assignments `msg[0]` … `msg[10]`). -/
noncomputable def velPayload (icao_int : ℤ) (speed_knots heading vertical_rate : ℝ) : List ℤ :=
  let east_west := ewComponent speed_knots heading
  let north_south := nsComponent speed_knots heading
  let ew_sign : ℤ := signBit east_west
  let ew_value : ℤ := clampedMag east_west 1023
  let ns_sign : ℤ := signBit north_south
  let ns_value : ℤ := clampedMag north_south 1023
  let vr_sign : ℤ := signBit vertical_rate
  let vr_value : ℤ := vrMag vertical_rate
  [0x8D,
   Int.land (shr icao_int 16) 0xFF,
   Int.land (shr icao_int 8) 0xFF,
   Int.land icao_int 0xFF,
   0x99,
   0x01,
   Int.lor (shl ew_sign 7) (Int.land (shr ew_value 3) 0x7F),
   Int.lor (shl (Int.land ew_value 0x07) 5)
     (Int.lor (shl ns_sign 4) (Int.land (shr ns_value 6) 0x0F)),
   Int.lor (shl (Int.land ns_value 0x3F) 2)
     (Int.lor (shl vr_sign 1) (shr vr_value 8)),
   Int.land vr_value 0xFF,
   0x00]

/-- Appending the CRC trailer: `crc = crc24(msg)` followed by the three
big-endian CRC bytes (`msg.append(...)` three times). -/
noncomputable def withCrc (msg : List ℤ) : List ℤ :=
  msg ++ [Int.land (shr (crc24 msg) 16) 0xFF,
          Int.land (shr (crc24 msg) 8) 0xFF,
          Int.land (crc24 msg) 0xFF]

/-- Uppercase hexadecimal digit character for a value below 16. -/
def hexDigitChar (n : ℕ) : Char :=
  if n < 10 then Char.ofNat (48 + n) else Char.ofNat (55 + n)

/-- Two uppercase hex characters of one byte:
`binascii.hexlify(...).decode('ascii').upper()` renders each byte as its
high then low nibble. -/
def byteHex (b : ℤ) : List Char :=
  [hexDigitChar ((b / 16) % 16).toNat, hexDigitChar (b % 16).toNat]

/-- Beast/AVR ASCII framing of a byte sequence:
`f"*{hex_msg};"` with `hex_msg` the uppercase hex rendering. -/
def framize (bytes : List ℤ) : String :=
  "*" ++ String.mk (bytes.map byteHex).flatten ++ ";"

/-- `create_airborne_position_message` from `flight370.py`: parse a string
ICAO (propagating its failure), build the 11-byte payload, append the CRC
trailer and frame it. -/
noncomputable def create_airborne_position_message (icao_hex : IcaoInput)
    (lat lon altitude : ℝ) (is_odd : Bool) : Option String :=
  match icao_hex with
  | .str s => (pyIntHex s).map fun icao_int =>
      framize (withCrc (posPayload icao_int lat lon altitude is_odd))
  | .int i => some (framize (withCrc (posPayload i lat lon altitude is_odd)))

/-- `create_velocity_message` from `flight370.py`. -/
noncomputable def create_velocity_message (icao_hex : IcaoInput)
    (speed_knots heading vertical_rate : ℝ) : Option String :=
  match icao_hex with
  | .str s => (pyIntHex s).map fun icao_int =>
      framize (withCrc (velPayload icao_int speed_knots heading vertical_rate))
  | .int i => some (framize (withCrc (velPayload i speed_knots heading vertical_rate)))

/-- Mask lemma at the byte mask `0xFF`. -/
theorem land255 (x : ℤ) : Int.land x 0xFF = x % 256 := by
  rw [show (0xFF : ℤ) = (2 : ℤ) ^ 8 - 1 from by norm_num, int_land_mask']
  norm_num

/-- Mask lemma at the nibble mask `0x0F`. -/
theorem land15 (x : ℤ) : Int.land x 0x0F = x % 16 := by
  rw [show (0x0F : ℤ) = (2 : ℤ) ^ 4 - 1 from by norm_num, int_land_mask']
  norm_num

/-- Mask lemma at the 2-bit mask `0x03`. -/
theorem land3 (x : ℤ) : Int.land x 0x03 = x % 4 := by
  rw [show (0x03 : ℤ) = (2 : ℤ) ^ 2 - 1 from by norm_num, int_land_mask']
  norm_num

/-- Mask lemma at the 7-bit mask `0x7F`. -/
theorem land127 (x : ℤ) : Int.land x 0x7F = x % 128 := by
  rw [show (0x7F : ℤ) = (2 : ℤ) ^ 7 - 1 from by norm_num, int_land_mask']
  norm_num

/-- Mask lemma at the 1-bit mask `0x01`. -/
theorem land1 (x : ℤ) : Int.land x 0x01 = x % 2 := by
  rw [show (0x01 : ℤ) = (2 : ℤ) ^ 1 - 1 from by norm_num, int_land_mask']
  norm_num

/-- Mask lemma at the 3-bit mask `0x07`. -/
theorem land7 (x : ℤ) : Int.land x 0x07 = x % 8 := by
  rw [show (0x07 : ℤ) = (2 : ℤ) ^ 3 - 1 from by norm_num, int_land_mask']
  norm_num

/-- Mask lemma at the 6-bit mask `0x3F`. -/
theorem land63 (x : ℤ) : Int.land x 0x3F = x % 64 := by
  rw [show (0x3F : ℤ) = (2 : ℤ) ^ 6 - 1 from by norm_num, int_land_mask']
  norm_num

/-- Layout of the 11 pre-CRC position-message bytes in div/mod form. -/
theorem posPayload_eq (icao : ℤ) (lat lon alt : ℝ) (odd : Bool)
    (h0 : 0 ≤ icao) (h1 : icao < 2 ^ 24) :
    posPayload icao lat lon alt odd =
      [0x8D,
       icao / 2 ^ 16,
       icao / 2 ^ 8 % 256,
       icao % 256,
       0x58,
       encode_altitude alt / 2 ^ 4,
       encode_altitude alt % 16 * 2 ^ 4 + 0 * 2 ^ 3 + (if odd then 1 else 0) * 2 ^ 2 +
         (encode_cpr_position lat lon odd).1 / 2 ^ 15,
       (encode_cpr_position lat lon odd).1 / 2 ^ 7 % 256,
       (encode_cpr_position lat lon odd).1 % 128 * 2 ^ 1 +
         (encode_cpr_position lat lon odd).2 / 2 ^ 16,
       (encode_cpr_position lat lon odd).2 / 2 ^ 8 % 256,
       (encode_cpr_position lat lon odd).2 % 256] := by
  have halt := encode_altitude_mem alt
  have hL1m := encode_cpr_fst_mem lat lon odd
  have hL2m := encode_cpr_snd_mem lat lon odd
  have hf0 : (0 : ℤ) ≤ (if odd then (1 : ℤ) else 0) := by cases odd <;> norm_num
  have hf1 : (if odd then (1 : ℤ) else 0) ≤ 1 := by cases odd <;> norm_num
  simp only [posPayload, shr, shl, land255, land15, land3, land127, land1]
  set e := encode_altitude alt with he
  set L1 := (encode_cpr_position lat lon odd).1 with hL1
  set L2 := (encode_cpr_position lat lon odd).2 with hL2
  set f := (if odd then (1 : ℤ) else 0) with hfd
  refine List.cons_eq_cons.mpr ⟨rfl, ?_⟩
  refine List.cons_eq_cons.mpr ⟨by omega, ?_⟩
  refine List.cons_eq_cons.mpr ⟨rfl, ?_⟩
  refine List.cons_eq_cons.mpr ⟨rfl, ?_⟩
  refine List.cons_eq_cons.mpr ⟨rfl, ?_⟩
  refine List.cons_eq_cons.mpr ⟨by omega, ?_⟩
  refine List.cons_eq_cons.mpr ⟨?_, ?_⟩
  · rw [int_lor_disjoint 4 (e % 16 * 2 ^ 4) (0 * 2 ^ 3) (by omega) (by omega)
      ⟨e % 16, by ring⟩ (by omega)]
    rw [int_lor_disjoint 3 (e % 16 * 2 ^ 4 + 0 * 2 ^ 3) (f * 2 ^ 2) (by omega) (by omega)
      ⟨e % 16 * 2, by ring⟩ (by omega)]
    rw [int_lor_disjoint 2 (e % 16 * 2 ^ 4 + 0 * 2 ^ 3 + f * 2 ^ 2) (L1 / 2 ^ 15 % 4)
      (by omega) (by omega) ⟨e % 16 * 2 ^ 2 + 0 * 2 + f, by ring⟩ (by omega)]
    omega
  refine List.cons_eq_cons.mpr ⟨rfl, ?_⟩
  refine List.cons_eq_cons.mpr ⟨?_, ?_⟩
  · rw [int_lor_disjoint 1 (L1 % 128 * 2 ^ 1) (L2 / 2 ^ 16 % 2) (by omega) (by omega)
      ⟨L1 % 128, by ring⟩ (by omega)]
    omega
  refine List.cons_eq_cons.mpr ⟨rfl, ?_⟩
  refine List.cons_eq_cons.mpr ⟨rfl, rfl⟩

/-- C2: the 11 pre-CRC bytes of the airborne position message are exactly:
`0x8D`; the 24-bit ICAO address big-endian; `0x58`; the high 8 bits of the
12-bit encoded altitude; the low 4 bits of the altitude, the Time bit fixed
to 0, the parity bit, and the top 2 bits of the 17-bit latitude index; the
next 8 bits of the latitude index; its low 7 bits followed by the top bit of
the 17-bit longitude index; the next 8 bits of the longitude index; and its
low 8 bits. -/
theorem posPayload_layout (icao : ℤ) (lat lon alt : ℝ) (odd : Bool)
    (h0 : 0 ≤ icao) (h1 : icao < 2 ^ 24) :
    posPayload icao lat lon alt odd =
      [0x8D,
       icao / 2 ^ 16,
       icao / 2 ^ 8 % 256,
       icao % 256,
       0x58,
       encode_altitude alt / 2 ^ 4,
       encode_altitude alt % 16 * 2 ^ 4 + 0 * 2 ^ 3 + (if odd then 1 else 0) * 2 ^ 2 +
         (encode_cpr_position lat lon odd).1 / 2 ^ 15,
       (encode_cpr_position lat lon odd).1 / 2 ^ 7 % 256,
       (encode_cpr_position lat lon odd).1 % 128 * 2 ^ 1 +
         (encode_cpr_position lat lon odd).2 / 2 ^ 16,
       (encode_cpr_position lat lon odd).2 / 2 ^ 8 % 256,
       (encode_cpr_position lat lon odd).2 % 256] :=
  posPayload_eq icao lat lon alt odd h0 h1

/-- Witness for C2 at a concrete in-range ICAO address. -/
theorem posPayload_layout_witness :
    posPayload 0x4840D6 33 (-81) 10000 false =
      [0x8D,
       0x4840D6 / 2 ^ 16,
       0x4840D6 / 2 ^ 8 % 256,
       0x4840D6 % 256,
       0x58,
       encode_altitude 10000 / 2 ^ 4,
       encode_altitude 10000 % 16 * 2 ^ 4 + 0 * 2 ^ 3 + (if false then 1 else 0) * 2 ^ 2 +
         (encode_cpr_position 33 (-81) false).1 / 2 ^ 15,
       (encode_cpr_position 33 (-81) false).1 / 2 ^ 7 % 256,
       (encode_cpr_position 33 (-81) false).1 % 128 * 2 ^ 1 +
         (encode_cpr_position 33 (-81) false).2 / 2 ^ 16,
       (encode_cpr_position 33 (-81) false).2 / 2 ^ 8 % 256,
       (encode_cpr_position 33 (-81) false).2 % 256] :=
  posPayload_layout 0x4840D6 33 (-81) 10000 false (by decide) (by decide)

/-- Sign bits are 0 or 1. -/
theorem signBit_mem (x : ℝ) : 0 ≤ signBit x ∧ signBit x ≤ 1 := by
  unfold signBit
  split_ifs <;> norm_num

/-- The clamped truncated magnitude lies in `[0, m]` for `0 ≤ m`. -/
theorem clampedMag_mem (x : ℝ) (m : ℤ) (hm : 0 ≤ m) :
    0 ≤ clampedMag x m ∧ clampedMag x m ≤ m := by
  unfold clampedMag pytrunc
  rw [if_pos (abs_nonneg x)]
  exact ⟨le_min hm (Int.floor_nonneg.mpr (abs_nonneg x)), min_le_left _ _⟩

/-- The vertical-rate magnitude lies in `[0, 511]`. -/
theorem vrMag_mem (x : ℝ) : 0 ≤ vrMag x ∧ vrMag x ≤ 511 := by
  unfold vrMag pytrunc
  rw [if_pos (by positivity : (0 : ℝ) ≤ |x| / 64)]
  exact ⟨le_min (by norm_num) (Int.floor_nonneg.mpr (by positivity)), min_le_left _ _⟩

/-- Layout of the 11 pre-CRC velocity-message bytes in div/mod form,
with the component magnitudes bounded. -/
theorem velPayload_eq (icao : ℤ) (speed heading vr : ℝ) :
    velPayload icao speed heading vr =
      [0x8D,
       icao / 2 ^ 16 % 256,
       icao / 2 ^ 8 % 256,
       icao % 256,
       0x99,
       0x01,
       signBit (ewComponent speed heading) * 2 ^ 7 +
         clampedMag (ewComponent speed heading) 1023 / 2 ^ 3,
       clampedMag (ewComponent speed heading) 1023 % 8 * 2 ^ 5 +
         (signBit (nsComponent speed heading) * 2 ^ 4 +
           clampedMag (nsComponent speed heading) 1023 / 2 ^ 6),
       clampedMag (nsComponent speed heading) 1023 % 64 * 2 ^ 2 +
         (signBit vr * 2 ^ 1 + vrMag vr / 2 ^ 8),
       vrMag vr % 256,
       0] ∧
    (0 ≤ clampedMag (ewComponent speed heading) 1023 ∧
      clampedMag (ewComponent speed heading) 1023 ≤ 1023) ∧
    (0 ≤ clampedMag (nsComponent speed heading) 1023 ∧
      clampedMag (nsComponent speed heading) 1023 ≤ 1023) ∧
    (0 ≤ vrMag vr ∧ vrMag vr ≤ 511) := by
  have hew := clampedMag_mem (ewComponent speed heading) 1023 (by norm_num)
  have hns := clampedMag_mem (nsComponent speed heading) 1023 (by norm_num)
  have hvv := vrMag_mem vr
  have hs1 := signBit_mem (ewComponent speed heading)
  have hs2 := signBit_mem (nsComponent speed heading)
  have hs3 := signBit_mem vr
  refine ⟨?_, hew, hns, hvv⟩
  simp only [velPayload, shr, shl, land255, land7, land15, land63, land127]
  set s1 := signBit (ewComponent speed heading) with hs1d
  set s2 := signBit (nsComponent speed heading) with hs2d
  set s3 := signBit vr with hs3d
  set eV := clampedMag (ewComponent speed heading) 1023 with heVd
  set nV := clampedMag (nsComponent speed heading) 1023 with hnVd
  set vV := vrMag vr with hvVd
  refine List.cons_eq_cons.mpr ⟨rfl, ?_⟩
  refine List.cons_eq_cons.mpr ⟨rfl, ?_⟩
  refine List.cons_eq_cons.mpr ⟨rfl, ?_⟩
  refine List.cons_eq_cons.mpr ⟨rfl, ?_⟩
  refine List.cons_eq_cons.mpr ⟨rfl, ?_⟩
  refine List.cons_eq_cons.mpr ⟨rfl, ?_⟩
  refine List.cons_eq_cons.mpr ⟨?_, ?_⟩
  · rw [int_lor_disjoint 7 (s1 * 2 ^ 7) (eV / 2 ^ 3 % 128) (by omega) (by omega)
      ⟨s1, by ring⟩ (by omega)]
    omega
  refine List.cons_eq_cons.mpr ⟨?_, ?_⟩
  · rw [int_lor_disjoint 4 (s2 * 2 ^ 4) (nV / 2 ^ 6 % 16) (by omega) (by omega)
      ⟨s2, by ring⟩ (by omega)]
    rw [int_lor_disjoint 5 (eV % 8 * 2 ^ 5) (s2 * 2 ^ 4 + nV / 2 ^ 6 % 16) (by omega)
      (by omega) ⟨eV % 8, by ring⟩ (by omega)]
    omega
  refine List.cons_eq_cons.mpr ⟨?_, ?_⟩
  · rw [int_lor_disjoint 1 (s3 * 2 ^ 1) (vV / 2 ^ 8) (by omega) (by omega)
      ⟨s3, by ring⟩ (by omega)]
    rw [int_lor_disjoint 2 (nV % 64 * 2 ^ 2) (s3 * 2 ^ 1 + vV / 2 ^ 8) (by omega)
      (by omega) ⟨nV % 64, by ring⟩ (by omega)]
  refine List.cons_eq_cons.mpr ⟨rfl, ?_⟩
  refine List.cons_eq_cons.mpr ⟨rfl, rfl⟩

/-- C7: the velocity message has byte 4 = `0x99`, byte 5 = `0x01` and byte
10 = 0; the heading/speed pair is decomposed into `ew = speed*sin(heading)`
and `ns = speed*cos(heading)` (heading converted from degrees to radians);
each component is packed across bytes 6-8 as a sign bit plus a 10-bit stored
magnitude — the truncated absolute component clamped to `[0, 1023]` — and
the vertical rate is packed across bytes 8-9 as a sign bit plus a magnitude
in 64 ft/min units truncated and clamped to `[0, 511]`. -/
theorem velPayload_layout (icao : ℤ) (speed heading vr : ℝ) :
    velPayload icao speed heading vr =
      [0x8D,
       icao / 2 ^ 16 % 256,
       icao / 2 ^ 8 % 256,
       icao % 256,
       0x99,
       0x01,
       signBit (ewComponent speed heading) * 2 ^ 7 +
         clampedMag (ewComponent speed heading) 1023 / 2 ^ 3,
       clampedMag (ewComponent speed heading) 1023 % 8 * 2 ^ 5 +
         (signBit (nsComponent speed heading) * 2 ^ 4 +
           clampedMag (nsComponent speed heading) 1023 / 2 ^ 6),
       clampedMag (nsComponent speed heading) 1023 % 64 * 2 ^ 2 +
         (signBit vr * 2 ^ 1 + vrMag vr / 2 ^ 8),
       vrMag vr % 256,
       0] ∧
    (0 ≤ clampedMag (ewComponent speed heading) 1023 ∧
      clampedMag (ewComponent speed heading) 1023 ≤ 1023) ∧
    (0 ≤ clampedMag (nsComponent speed heading) 1023 ∧
      clampedMag (nsComponent speed heading) 1023 ≤ 1023) ∧
    (0 ≤ vrMag vr ∧ vrMag vr ≤ 511) :=
  velPayload_eq icao speed heading vr

/-- Each byte renders as exactly two hex characters. -/
theorem byteHex_length (b : ℤ) : (byteHex b).length = 2 := rfl

/-- The hex rendering of a byte list has two characters per byte. -/
theorem hexFlatten_length (bytes : List ℤ) :
    ((bytes.map byteHex).flatten).length = 2 * bytes.length := by
  induction bytes with
  | nil => simp
  | cons b t ih =>
      simp only [List.map_cons, List.flatten_cons, List.length_append, ih,
        byteHex_length, List.length_cons]
      omega

/-- A framized byte list has `2 * n + 2` characters. -/
theorem framize_length (bytes : List ℤ) :
    (framize bytes).length = 2 * bytes.length + 2 := by
  unfold framize
  rw [String.length_append, String.length_append]
  have h1 : (String.mk ((bytes.map byteHex).flatten)).length =
      ((bytes.map byteHex).flatten).length := rfl
  have h2 : "*".length = 1 := rfl
  have h3 : ";".length = 1 := rfl
  rw [h1, h2, h3, hexFlatten_length]
  omega

/-- The position payload is 11 bytes long. -/
theorem posPayload_len (icao : ℤ) (lat lon alt : ℝ) (odd : Bool) :
    (posPayload icao lat lon alt odd).length = 11 := by
  simp [posPayload]

/-- The velocity payload is 11 bytes long. -/
theorem velPayload_len (icao : ℤ) (speed heading vr : ℝ) :
    (velPayload icao speed heading vr).length = 11 := by
  simp [velPayload]

/-- Appending the CRC trailer adds exactly 3 bytes. -/
theorem withCrc_length (msg : List ℤ) : (withCrc msg).length = msg.length + 3 := by
  simp [withCrc]

/-- The CRC-24 value is masked into `[0, 2^24)`. -/
theorem crc24_mem (msg : List ℤ) : 0 ≤ crc24 msg ∧ crc24 msg < 2 ^ 24 := by
  unfold crc24
  rw [show (0xFFFFFF : ℤ) = (2 : ℤ) ^ 24 - 1 from by norm_num, int_land_mask']
  exact ⟨Int.emod_nonneg _ (by norm_num), Int.emod_lt_of_pos _ (by norm_num)⟩

/-- The CRC trailer is the big-endian 3-byte rendering of the 24-bit CRC. -/
theorem withCrc_eq_bytes (msg : List ℤ) :
    withCrc msg = msg ++
      [crc24 msg / 2 ^ 16, crc24 msg / 2 ^ 8 % 256, crc24 msg % 256] := by
  have hc := crc24_mem msg
  unfold withCrc
  simp only [shr, land255]
  congr 1
  refine List.cons_eq_cons.mpr ⟨by omega, ?_⟩
  refine List.cons_eq_cons.mpr ⟨rfl, rfl⟩

/-- Only the low 24 bits of the ICAO integer reach the position payload. -/
theorem posPayload_truncate (icao : ℤ) (lat lon alt : ℝ) (odd : Bool) :
    posPayload icao lat lon alt odd = posPayload (icao % 2 ^ 24) lat lon alt odd := by
  simp only [posPayload, shr, shl, land255, land15, land3, land127, land1]
  refine List.cons_eq_cons.mpr ⟨rfl, ?_⟩
  refine List.cons_eq_cons.mpr ⟨by omega, ?_⟩
  refine List.cons_eq_cons.mpr ⟨by omega, ?_⟩
  refine List.cons_eq_cons.mpr ⟨by omega, rfl⟩

/-- Only the low 24 bits of the ICAO integer reach the velocity payload. -/
theorem velPayload_truncate (icao : ℤ) (speed heading vr : ℝ) :
    velPayload icao speed heading vr = velPayload (icao % 2 ^ 24) speed heading vr := by
  simp only [velPayload, shr, shl, land255, land7, land15, land63, land127, land1]
  refine List.cons_eq_cons.mpr ⟨rfl, ?_⟩
  refine List.cons_eq_cons.mpr ⟨by omega, ?_⟩
  refine List.cons_eq_cons.mpr ⟨by omega, ?_⟩
  refine List.cons_eq_cons.mpr ⟨by omega, rfl⟩

/-- Every position-payload entry is a byte value (required for the
`bytearray` stores in the source and for the two-character hex rendering). -/
theorem posPayload_bytes_mem (icao : ℤ) (lat lon alt : ℝ) (odd : Bool) :
    ∀ b ∈ posPayload icao lat lon alt odd, 0 ≤ b ∧ b < 256 := by
  rw [posPayload_truncate]
  rw [posPayload_eq (icao % 2 ^ 24) lat lon alt odd (Int.emod_nonneg _ (by norm_num))
    (Int.emod_lt_of_pos _ (by norm_num))]
  have halt := encode_altitude_mem alt
  have hL1m := encode_cpr_fst_mem lat lon odd
  have hL2m := encode_cpr_snd_mem lat lon odd
  have hf0 : (0 : ℤ) ≤ (if odd then (1 : ℤ) else 0) := by cases odd <;> norm_num
  have hf1 : (if odd then (1 : ℤ) else 0) ≤ 1 := by cases odd <;> norm_num
  have hicao0 : 0 ≤ icao % 2 ^ 24 := Int.emod_nonneg _ (by norm_num)
  have hicao1 : icao % 2 ^ 24 < 2 ^ 24 := Int.emod_lt_of_pos _ (by norm_num)
  intro b hb
  simp only [List.mem_cons, List.not_mem_nil, or_false] at hb
  rcases hb with rfl | rfl | rfl | rfl | rfl | rfl | rfl | rfl | rfl | rfl | rfl <;> omega

/-- Every velocity-payload entry is a byte value. -/
theorem velPayload_bytes_mem (icao : ℤ) (speed heading vr : ℝ) :
    ∀ b ∈ velPayload icao speed heading vr, 0 ≤ b ∧ b < 256 := by
  rw [(velPayload_eq icao speed heading vr).1]
  have hew := clampedMag_mem (ewComponent speed heading) 1023 (by norm_num)
  have hns := clampedMag_mem (nsComponent speed heading) 1023 (by norm_num)
  have hvv := vrMag_mem vr
  have hs1 := signBit_mem (ewComponent speed heading)
  have hs2 := signBit_mem (nsComponent speed heading)
  have hs3 := signBit_mem vr
  intro b hb
  simp only [List.mem_cons, List.not_mem_nil, or_false] at hb
  rcases hb with rfl | rfl | rfl | rfl | rfl | rfl | rfl | rfl | rfl | rfl | rfl <;> omega

/-- The CRC trailer preserves the byte-range invariant. -/
theorem withCrc_bytes_mem (msg : List ℤ) (h : ∀ b ∈ msg, 0 ≤ b ∧ b < 256) :
    ∀ b ∈ withCrc msg, 0 ≤ b ∧ b < 256 := by
  unfold withCrc
  intro b hb
  rcases List.mem_append.mp hb with hb | hb
  · exact h b hb
  · simp only [List.mem_cons, List.not_mem_nil, or_false] at hb
    rcases hb with rfl | rfl | rfl
    · rw [land255]
      omega
    · rw [land255]
      omega
    · rw [land255]
      omega

/-- Each hex digit character is one of the sixteen uppercase hex digits. -/
theorem hexDigitChar_mem_charset (n : ℕ) (h : n < 16) :
    hexDigitChar n ∈ "0123456789ABCDEF".data := by
  interval_cases n <;> decide

/-- Both output characters of `byteHex` are uppercase hex digits. -/
theorem byteHex_chars (b : ℤ) : ∀ c ∈ byteHex b, c ∈ "0123456789ABCDEF".data := by
  intro c hc
  simp only [byteHex, List.mem_cons, List.not_mem_nil, or_false] at hc
  have h1 : ((b / 16) % 16).toNat < 16 := by omega
  have h2 : (b % 16).toNat < 16 := by omega
  rcases hc with rfl | rfl
  · exact hexDigitChar_mem_charset _ h1
  · exact hexDigitChar_mem_charset _ h2

/-- None of the sixteen hex digit characters is whitespace. -/
theorem hex_charset_not_ws : ∀ c ∈ "0123456789ABCDEF".data, ¬ c.isWhitespace := by
  decide

/-- The character list of a framized byte list: leading `*`, the flattened
hex characters, trailing `;`. -/
theorem framize_data (bytes : List ℤ) :
    (framize bytes).data = '*' :: ((bytes.map byteHex).flatten ++ [';']) := by
  unfold framize
  rw [String.data_append, String.data_append]
  simp

/-- Every character of a frame is the delimiter `*` or `;` or an uppercase
hex digit. -/
theorem framize_chars (bytes : List ℤ) :
    ∀ c ∈ (framize bytes).data, c = '*' ∨ c = ';' ∨ c ∈ "0123456789ABCDEF".data := by
  intro c hc
  rw [framize_data] at hc
  simp only [List.mem_cons, List.mem_append, List.not_mem_nil, or_false] at hc
  rcases hc with rfl | hc | rfl
  · exact Or.inl rfl
  · obtain ⟨l, hl, hcl⟩ := List.mem_flatten.mp hc
    obtain ⟨b, _, rfl⟩ := List.mem_map.mp hl
    exact Or.inr (Or.inr (byteHex_chars b c hcl))
  · exact Or.inr (Or.inl rfl)

/-- A frame contains no whitespace. -/
theorem framize_no_ws (bytes : List ℤ) :
    ∀ c ∈ (framize bytes).data, ¬ c.isWhitespace := by
  intro c hc
  rcases framize_chars bytes c hc with rfl | rfl | h
  · decide
  · decide
  · exact hex_charset_not_ws c h

/-- A frame starts with `*`. -/
theorem framize_head (bytes : List ℤ) : (framize bytes).data.head? = some '*' := by
  rw [framize_data]
  rfl

/-- A frame ends with `;`. -/
theorem framize_last (bytes : List ℤ) : (framize bytes).data.getLast? = some ';' := by
  rw [framize_data]
  rw [show ('*' :: ((bytes.map byteHex).flatten ++ [';'])) =
      (('*' :: (bytes.map byteHex).flatten) ++ [';']) from by simp]
  exact List.getLast?_concat _

/-- C8 counterexample: the position frame built for ICAO 0 at the origin is
`*` + 28 hex characters + `;`, i.e. exactly 30 characters — not 31 as the
claim states. -/
theorem frame_length_31_refuted :
    create_airborne_position_message (.int 0) 0 0 0 false =
      some (framize (withCrc (posPayload 0 0 0 0 false))) ∧
    (framize (withCrc (posPayload 0 0 0 0 false))).length = 30 := by
  refine ⟨rfl, ?_⟩
  rw [framize_length, withCrc_length, posPayload_len]

/-- C8 (amended): every produced frame string (position or velocity) equals
`*` followed by the uppercase hexadecimal rendering of exactly 14 bytes —
the 11-byte payload followed by the 3-byte big-endian `crc24` of that
payload — followed by `;`, with no embedded whitespace; hence every frame
string has exactly 30 characters (`*`, 28 hex digits, `;`) and its final 3
decoded bytes equal `crc24` of the preceding 11 bytes. -/
theorem frame_wire_format (icao : ℤ) (lat lon alt : ℝ) (odd : Bool)
    (speed heading vrate : ℝ) :
    (create_airborne_position_message (.int icao) lat lon alt odd =
      some (framize (withCrc (posPayload icao lat lon alt odd))) ∧
     withCrc (posPayload icao lat lon alt odd) =
       posPayload icao lat lon alt odd ++
         [crc24 (posPayload icao lat lon alt odd) / 2 ^ 16,
          crc24 (posPayload icao lat lon alt odd) / 2 ^ 8 % 256,
          crc24 (posPayload icao lat lon alt odd) % 256] ∧
     (posPayload icao lat lon alt odd).length = 11 ∧
     (withCrc (posPayload icao lat lon alt odd)).length = 14 ∧
     (∀ b ∈ withCrc (posPayload icao lat lon alt odd), 0 ≤ b ∧ b < 256) ∧
     (framize (withCrc (posPayload icao lat lon alt odd))).length = 30 ∧
     (framize (withCrc (posPayload icao lat lon alt odd))).data.head? = some '*' ∧
     (framize (withCrc (posPayload icao lat lon alt odd))).data.getLast? = some ';' ∧
     (∀ c ∈ (framize (withCrc (posPayload icao lat lon alt odd))).data,
        c = '*' ∨ c = ';' ∨ c ∈ "0123456789ABCDEF".data) ∧
     (∀ c ∈ (framize (withCrc (posPayload icao lat lon alt odd))).data,
        ¬ c.isWhitespace)) ∧
    (create_velocity_message (.int icao) speed heading vrate =
      some (framize (withCrc (velPayload icao speed heading vrate))) ∧
     withCrc (velPayload icao speed heading vrate) =
       velPayload icao speed heading vrate ++
         [crc24 (velPayload icao speed heading vrate) / 2 ^ 16,
          crc24 (velPayload icao speed heading vrate) / 2 ^ 8 % 256,
          crc24 (velPayload icao speed heading vrate) % 256] ∧
     (velPayload icao speed heading vrate).length = 11 ∧
     (withCrc (velPayload icao speed heading vrate)).length = 14 ∧
     (∀ b ∈ withCrc (velPayload icao speed heading vrate), 0 ≤ b ∧ b < 256) ∧
     (framize (withCrc (velPayload icao speed heading vrate))).length = 30 ∧
     (framize (withCrc (velPayload icao speed heading vrate))).data.head? = some '*' ∧
     (framize (withCrc (velPayload icao speed heading vrate))).data.getLast? = some ';' ∧
     (∀ c ∈ (framize (withCrc (velPayload icao speed heading vrate))).data,
        c = '*' ∨ c = ';' ∨ c ∈ "0123456789ABCDEF".data) ∧
     (∀ c ∈ (framize (withCrc (velPayload icao speed heading vrate))).data,
        ¬ c.isWhitespace)) := by
  constructor
  · refine ⟨rfl, withCrc_eq_bytes _, posPayload_len icao lat lon alt odd, ?_,
      withCrc_bytes_mem _ (posPayload_bytes_mem icao lat lon alt odd), ?_,
      framize_head _, framize_last _, framize_chars _, framize_no_ws _⟩
    · rw [withCrc_length, posPayload_len]
    · rw [framize_length, withCrc_length, posPayload_len]
  · refine ⟨rfl, withCrc_eq_bytes _, velPayload_len icao speed heading vrate, ?_,
      withCrc_bytes_mem _ (velPayload_bytes_mem icao speed heading vrate), ?_,
      framize_head _, framize_last _, framize_chars _, framize_no_ws _⟩
    · rw [withCrc_length, velPayload_len]
    · rw [framize_length, withCrc_length, velPayload_len]

/-- C9: a string ICAO address that does not parse as hexadecimal makes both
frame builders fail fast (return `none`, modelling the `ValueError` raised
before any frame byte is built); every string that does parse, and every
integer ICAO, always yields a frame — the numeric latitude, longitude,
altitude, speed, heading and vertical-rate inputs are never rejected. The
final conjunct characterises the parse failure: it happens exactly when the
string is empty or contains a non-hex character. -/
theorem invalid_icao_rejected :
    (∀ s : String, pyIntHex s = none →
      ∀ (lat lon alt : ℝ) (odd : Bool) (speed heading vrate : ℝ),
        create_airborne_position_message (.str s) lat lon alt odd = none ∧
        create_velocity_message (.str s) speed heading vrate = none) ∧
    (∀ s : String, pyIntHex s ≠ none →
      ∀ (lat lon alt : ℝ) (odd : Bool) (speed heading vrate : ℝ),
        (∃ out, create_airborne_position_message (.str s) lat lon alt odd = some out) ∧
        ∃ out, create_velocity_message (.str s) speed heading vrate = some out) ∧
    (∀ (i : ℤ) (lat lon alt : ℝ) (odd : Bool) (speed heading vrate : ℝ),
      (∃ out, create_airborne_position_message (.int i) lat lon alt odd = some out) ∧
      ∃ out, create_velocity_message (.int i) speed heading vrate = some out) ∧
    (∀ s : String, pyIntHex s = none ↔
      (s.data = [] ∨ ¬ s.data.all fun c => (hexDigitVal c).isSome)) := by
  refine ⟨?_, ?_, ?_, ?_⟩
  · intro s h lat lon alt odd speed heading vrate
    constructor
    · show (pyIntHex s).map _ = none
      rw [h]
      rfl
    · show (pyIntHex s).map _ = none
      rw [h]
      rfl
  · intro s h lat lon alt odd speed heading vrate
    obtain ⟨v, hv⟩ := Option.ne_none_iff_exists'.mp h
    constructor
    · refine ⟨framize (withCrc (posPayload v lat lon alt odd)), ?_⟩
      show (pyIntHex s).map _ = _
      rw [hv]
      rfl
    · refine ⟨framize (withCrc (velPayload v speed heading vrate)), ?_⟩
      show (pyIntHex s).map _ = _
      rw [hv]
      rfl
  · intro i lat lon alt odd speed heading vrate
    exact ⟨⟨_, rfl⟩, ⟨_, rfl⟩⟩
  · intro s
    by_cases hc : s.data ≠ [] ∧ s.data.all (fun c => (hexDigitVal c).isSome)
    · rw [pyIntHex, if_pos hc]
      constructor
      · intro hcontra
        exact absurd hcontra (by simp)
      · intro hd
        rcases hd with hd | hd
        · exact absurd hd hc.1
        · exact absurd hc.2 hd
    · rw [pyIntHex, if_neg hc]
      constructor
      · intro _
        by_cases hd : s.data = []
        · exact Or.inl hd
        · refine Or.inr fun hall => hc ⟨hd, hall⟩
      · intro _
        rfl

/-- Witness for C9 at the concrete non-hex string `"XYZ"`. -/
theorem invalid_icao_rejected_witness :
    create_airborne_position_message (.str "XYZ") 0 0 0 false = none ∧
      create_velocity_message (.str "XYZ") 0 0 0 = none :=
  invalid_icao_rejected.1 "XYZ" (by decide) 0 0 0 false 0 0 0

/-- C10: an integer ICAO address is accepted without any range check; only
its low 24 bits reach bytes 1-3 of either payload (an integer of `2^24` or
more is silently truncated, not rejected), and the resulting frame is still
a well-formed 14-byte message. -/
theorem icao_int_truncation (icao : ℤ) (lat lon alt : ℝ) (odd : Bool)
    (speed heading vrate : ℝ) :
    posPayload icao lat lon alt odd = posPayload (icao % 2 ^ 24) lat lon alt odd ∧
    velPayload icao speed heading vrate = velPayload (icao % 2 ^ 24) speed heading vrate ∧
    create_airborne_position_message (.int icao) lat lon alt odd =
      some (framize (withCrc (posPayload icao lat lon alt odd))) ∧
    (withCrc (posPayload icao lat lon alt odd)).length = 14 ∧
    create_velocity_message (.int icao) speed heading vrate =
      some (framize (withCrc (velPayload icao speed heading vrate))) ∧
    (withCrc (velPayload icao speed heading vrate)).length = 14 := by
  refine ⟨posPayload_truncate icao lat lon alt odd,
    velPayload_truncate icao speed heading vrate, rfl, ?_, rfl, ?_⟩
  · rw [withCrc_length, posPayload_len]
  · rw [withCrc_length, velPayload_len]

end Flight370
